import Mathlib

/-!
Verification development for the `preprocess_markdown.py` repository.

Part 1 embeds the script as written: its top-level statement structure and
the Python runtime rules its calls hit (the compile-time check that a
return statement may only occur inside a function body, the keyword
checking of the print builtin, and the argparse rule rejecting the
required keyword on positional arguments).

Part 2 models the preprocessor contract specified by the design document
(the script itself implements no include expansion), and proves the
specified testable properties against that model.
-/

/-- Errors the Python runtime can raise in the parts of the script we model. -/
inductive PyError where
  | synError (msg : String)
  | typeError (msg : String)
  | systemExit (code : Nat)
deriving DecidableEq

/-- Top-level Python statements, at the granularity the script uses.
A `defFun` body is a function body: return statements inside it are legal,
so we do not descend into it when checking for bare returns. -/
inductive PyStmt where
  | futureImports (features : List String)
  | pyImport (module : String)
  | defFun (name : String)
  | ifNameMain (body : PyStmt)
  | ret (expr : String)
deriving DecidableEq

/-- Whether a top-level statement contains a return outside any function
body.  An if-statement at module level does not open a function scope, so a
return inside its body is still a bare return. -/
def bareReturn : PyStmt → Bool
  | .ret _ => true
  | .ifNameMain b => bareReturn b
  | _ => false

/-- The statement list of src/preprocess_markdown.py, line for line. -/
def preprocessMarkdownScript : List PyStmt :=
  [ .futureImports ["print_function", "with_statement", "division"],
    .pyImport "argparse",
    .defFun "parse_args",
    .defFun "main",
    .ifNameMain (.ret "main()") ]

/-- Python compiles a module before executing any of it; a return statement
outside a function is a SyntaxError detected at this stage. -/
def compileModule (stmts : List PyStmt) : Except PyError Unit :=
  if stmts.any bareReturn then
    .error (.synError "return outside function")
  else
    .ok ()

/-- An argument name without a leading dash is a positional argument. -/
def isPositionalName (name : String) : Bool :=
  match name.toList with
  | '-' :: _ => false
  | _ => true

/-- Python argparse add_argument: supplying the required keyword for a
positional argument raises TypeError (required is an unnecessary argument
for positionals) at registration time, before any argv is inspected. -/
def addArgument (name : String) (kwargs : List String) : Except PyError Unit :=
  if isPositionalName name && kwargs.contains "required" then
    .error (.typeError "required is an unnecessary argument for positionals")
  else
    .ok ()

/-- Model of the argv-processing phase of argparse for the script, which
has two positionals, the first opened as a file by FileType r.  Returns the
files opened and the parse result.  With fewer than two arguments argparse
exits with a usage error. -/
def parseArgv : List String → List String × Except PyError Unit
  | input :: _ :: _ => ([input], .ok ())
  | _ => ([], .error (.systemExit 2))

/-- The parse_args function of the script: registers input_file (with
keywords type, help, required) and path (with keywords type, help), then
processes argv.  Returns the files opened and the result. -/
def parse_args (argv : List String) : List String × Except PyError Unit :=
  match addArgument "input_file" ["type", "help", "required"] with
  | .error e => ([], .error e)
  | .ok _ =>
    match addArgument "path" ["type", "help"] with
    | .error e => ([], .error e)
    | .ok _ => parseArgv argv

/-- The keyword arguments accepted by the print builtin. -/
def printKwNames : List String := ["sep", "end", "file", "flush"]

/-- The print builtin rejects an unknown keyword argument with TypeError
before writing anything. -/
def pyPrint (line : String) (kwargs : List String) : Except PyError String :=
  match kwargs.find? (fun k => !(printKwNames.contains k)) with
  | some k => .error (.typeError (k ++ " is an invalid keyword argument for print"))
  | none => .ok line

/-- The for loop of main: each input line is passed to print with the
keyword eol.  Returns the lines successfully echoed and the error, if any;
an error stops the loop at that line. -/
def mainLoop : List String → List String × Option PyError
  | [] => ([], none)
  | line :: rest =>
    match pyPrint line ["eol"] with
    | .error e => ([], some e)
    | .ok s =>
      let (out, err) := mainLoop rest
      (s :: out, err)

/-- Running python on the script with the given argv and input-file
contents: the module is compiled first; on success the main guard would run
parse_args and then the echo loop.  Returns the exit code and the lines
written to standard output; any uncaught error exits with code 1. -/
def runScript (argv : List String) (input : List String) : Nat × List String :=
  match compileModule preprocessMarkdownScript with
  | .error _ => (1, [])
  | .ok _ =>
    match parse_args argv with
    | (_, .error _) => (1, [])
    | (_, .ok _) =>
      match mainLoop input with
      | (out, some _) => (1, out)
      | (out, none) => (0, out)

/-- C3: on every invocation the script fails before processing any input:
compiling the module hits the bare return in the main guard, raising
SyntaxError, so the program writes nothing to standard output and exits
nonzero regardless of its arguments or input. -/
theorem script_load_fails_no_output :
    compileModule preprocessMarkdownScript = .error (.synError "return outside function") ∧
    ∀ (argv input : List String), runScript argv input = (1, []) := by
  refine ⟨rfl, ?_⟩
  intro argv input
  rfl

/-- C9: even if the script body were executed, the echo loop raises
TypeError on its very first line, because print is called with the unknown
keyword eol; hence no input line is ever successfully echoed. -/
theorem main_loop_type_error_first_line :
    ∀ (l : String) (ls : List String),
      mainLoop (l :: ls) =
        ([], some (.typeError "eol is an invalid keyword argument for print")) := by
  intro l ls
  rfl

/-- C10: for every argument vector, parse_args raises TypeError while
registering the positional input_file with the required keyword, before any
input file is opened, so argument parsing never succeeds. -/
theorem parse_args_type_error_all_argv :
    ∀ argv : List String,
      parse_args argv =
        ([], .error (.typeError "required is an unnecessary argument for positionals")) := by
  intro argv
  rfl

/-- C1 (evidence of the code bug): at a concrete invocation with a
one-line document, the script as written produces no output and exits
nonzero, instead of echoing the line as the claim states. -/
theorem script_never_echoes_at_hello :
    runScript ["doc.md", "include"] ["hello"] = (1, []) ∧
    runScript ["doc.md", "include"] ["hello"] ≠ (0, ["hello"]) := by
  constructor
  · rfl
  · intro h
    rw [show runScript ["doc.md", "include"] ["hello"] = (1, []) from rfl] at h
    simp at h

/-- Modelled from the spec: the include-directive grammar is missing from
the source (the script implements no include expansion; the design
document leaves the exact syntax as an open choice and gives the example
form of a fence line carrying an include annotation).  Scans a character
list for the annotation marker and splits around it. -/
def splitOnInclude : List Char → Option (List Char × List Char)
  | [] => none
  | c :: cs =>
    if (c :: cs).take 9 = ":include=".toList then
      some ([], (c :: cs).drop 9)
    else
      match splitOnInclude cs with
      | some (a, b) => some (c :: a, b)
      | none => none

/-- Modelled from the spec: an include directive, derived transiently from
a line — a referenced file path and a language tag for fenced-code
rendering. -/
structure Directive where
  lang : String
  path : String
deriving DecidableEq

/-- The three-backtick fence marker. -/
def fenceChars : List Char := "```".toList

/-- Modelled from the spec: recognising a directive line — a fenced-code
opening fence carrying a file-reference annotation, as in the example form
where a fence is followed by a language tag, the include marker and a
path.  Any other line is a plain line. -/
def parseDirective (line : String) : Option Directive :=
  if line.toList.take 3 = fenceChars then
    match splitOnInclude (line.toList.drop 3) with
    | some (lang, path) => some ⟨String.mk lang, String.mk path⟩
    | none => none
  else
    none

/-- Modelled from the spec: the opening fence emitted in place of a
directive, carrying the directive language tag. -/
def renderFence (d : Directive) : String :=
  String.mk (fenceChars ++ d.lang.toList)

/-- The error kind of the specified preprocessor: an include directive
names a file that does not exist under the search path; reported with line
number and path. -/
inductive PError where
  | referenceNotFound (lineNo : Nat) (path : String)
deriving DecidableEq

/-- The search path, as the partial map it induces from relative paths to
file contents (a file's contents as a sequence of lines). -/
def FS : Type := String → Option (List String)

/-- Modelled from the spec: processing one input line, numbered for error
reporting.  A plain line is emitted unchanged; a directive line is
resolved against the search path and replaced by the rendered fence
followed by the referenced file's lines, or fails with ReferenceNotFound
when the file is missing. -/
def expandLine (fs : FS) (lineNo : Nat) (line : String) : Except PError (List String) :=
  match parseDirective line with
  | none => .ok [line]
  | some d =>
    match fs d.path with
    | none => .error (.referenceNotFound lineNo d.path)
    | some contents => .ok (renderFence d :: contents)

/-- Modelled from the spec: the single top-to-bottom pass of the
preprocessor from a given line number, expanding each line in turn; the
first failure aborts the whole run. -/
def processFrom (fs : FS) : Nat → List String → Except PError (List String)
  | _, [] => .ok []
  | n, l :: ls =>
    match expandLine fs n l with
    | .error e => .error e
    | .ok c =>
      match processFrom fs (n + 1) ls with
      | .error e => .error e
      | .ok rest => .ok (c ++ rest)

/-- Modelled from the spec: the preprocessor contract
process(document, search path) — absent from the source — as a single
pass over the document with lines numbered from one. -/
def process (fs : FS) (doc : List String) : Except PError (List String) :=
  processFrom fs 1 doc

/-- Modelled from the spec: the CLI surface around the preprocessor —
exit code zero and the processed document on success; on any resolution
error, exit code one and no standard output (no partial document is
emitted). -/
def runProcess (fs : FS) (doc : List String) : Nat × List String :=
  match process fs doc with
  | .ok out => (0, out)
  | .error _ => (1, [])

/-- Whether a line is an include directive whose referenced file is
missing from the search path. -/
def failsOn (fs : FS) (l : String) : Bool :=
  match parseDirective l with
  | some d => (fs d.path).isNone
  | none => false

/-- The per-line output chunks of a run, one chunk per input line, in
input order. -/
def lineOutputs (fs : FS) : Nat → List String → Except PError (List (List String))
  | _, [] => .ok []
  | n, l :: ls =>
    match expandLine fs n l with
    | .error e => .error e
    | .ok c =>
      match lineOutputs fs (n + 1) ls with
      | .error e => .error e
      | .ok cs => .ok (c :: cs)

/-- Iterated runs of the preprocessor: n successive runs, each feeding its
output to the next; zero runs yield the document itself. -/
def processIter (fs : FS) : Nat → List String → Except PError (List String)
  | 0, doc => .ok doc
  | n + 1, doc =>
    match process fs doc with
    | .error e => .error e
    | .ok out => processIter fs n out

/-- The pass with an explicit fuel bound: consumes one unit of fuel per
input line and gives up when the fuel runs out, witnessing that the pass
needs no more steps than the document has lines. -/
def processFromFuel (fs : FS) : Nat → Nat → List String → Option (Except PError (List String))
  | _, _, [] => some (.ok [])
  | 0, _, _ :: _ => none
  | fuel + 1, n, l :: ls =>
    match expandLine fs n l with
    | .error e => some (.error e)
    | .ok c =>
      match processFromFuel fs fuel (n + 1) ls with
      | none => none
      | some (.error e) => some (.error e)
      | some (.ok rest) => some (.ok (c ++ rest))

/-- A run over directive-free lines emits them unchanged, from any
starting line number. -/
theorem processFrom_no_dirs (fs : FS) :
    ∀ doc : List String, (∀ l ∈ doc, parseDirective l = none) →
      ∀ n : Nat, processFrom fs n doc = .ok doc := by
  intro doc
  induction doc with
  | nil => intro _ n; rfl
  | cons l ls ih =>
    intro h n
    have hl : parseDirective l = none := h l (List.mem_cons_self l ls)
    have hls : ∀ x ∈ ls, parseDirective x = none :=
      fun x hx => h x (List.mem_cons_of_mem l hx)
    simp [processFrom, expandLine, hl, ih hls (n + 1)]

/-- A directive-free prefix passes through unchanged and shifts the line
numbering of the remainder by its length. -/
theorem processFrom_append_plain (fs : FS) (rest : List String) :
    ∀ pre : List String, (∀ l ∈ pre, parseDirective l = none) →
      ∀ n : Nat, processFrom fs n (pre ++ rest) =
        Except.map (fun out => pre ++ out) (processFrom fs (n + pre.length) rest) := by
  intro pre
  induction pre with
  | nil =>
    intro _ n
    simp only [List.nil_append, Nat.add_zero]
    cases hr : processFrom fs n rest with
    | ok out => simp [hr, Except.map]
    | error e => simp [hr, Except.map]
  | cons l pre ih =>
    intro h n
    have hl : parseDirective l = none := h l (List.mem_cons_self l pre)
    have hpre : ∀ x ∈ pre, parseDirective x = none :=
      fun x hx => h x (List.mem_cons_of_mem l hx)
    have ih1 := ih hpre (n + 1)
    have hidx : n + 1 + pre.length = n + (pre.length + 1) := by omega
    rw [hidx] at ih1
    cases hres : processFrom fs (n + (pre.length + 1)) rest with
    | ok out =>
      rw [hres] at ih1
      simp only [Except.map] at ih1
      simp [processFrom, expandLine, hl, ih1, hres, Except.map,
        List.cons_append, List.length_cons]
    | error e =>
      rw [hres] at ih1
      simp only [Except.map] at ih1
      simp [processFrom, expandLine, hl, ih1, hres, Except.map,
        List.cons_append, List.length_cons]

/-- The pass computes the concatenation of the per-line chunks. -/
theorem processFrom_eq_lineOutputs (fs : FS) :
    ∀ (doc : List String) (n : Nat),
      processFrom fs n doc = Except.map List.flatten (lineOutputs fs n doc) := by
  intro doc
  induction doc with
  | nil => intro n; rfl
  | cons l ls ih =>
    intro n
    cases he : expandLine fs n l with
    | error e => simp [processFrom, lineOutputs, he, Except.map]
    | ok c =>
      have hrec := ih (n + 1)
      cases hlo : lineOutputs fs (n + 1) ls with
      | error e =>
        rw [hlo] at hrec
        simp [processFrom, lineOutputs, he, hlo, hrec, Except.map]
      | ok cs =>
        rw [hlo] at hrec
        simp [processFrom, lineOutputs, he, hlo, hrec, Except.map]

/-- A successful run yields exactly one chunk per input line. -/
theorem lineOutputs_length (fs : FS) :
    ∀ (doc : List String) (n : Nat) (chunks : List (List String)),
      lineOutputs fs n doc = .ok chunks → chunks.length = doc.length := by
  intro doc
  induction doc with
  | nil =>
    intro n chunks h
    simp only [lineOutputs, Except.ok.injEq] at h
    subst h
    rfl
  | cons l ls ih =>
    intro n chunks h
    cases he : expandLine fs n l with
    | error e => simp [lineOutputs, he] at h
    | ok c =>
      cases hlo : lineOutputs fs (n + 1) ls with
      | error e => simp [lineOutputs, he, hlo] at h
      | ok cs =>
        simp only [lineOutputs, he, hlo, Except.ok.injEq] at h
        subst h
        simp [ih (n + 1) cs hlo]

/-- A line on which the search path fails expands to a ReferenceNotFound
error carrying that line number and the referenced path. -/
theorem expandLine_of_failsOn (fs : FS) (l : String) (hf : failsOn fs l = true) (n : Nat) :
    ∃ d : Directive, parseDirective l = some d ∧
      expandLine fs n l = .error (.referenceNotFound n d.path) := by
  cases hd : parseDirective l with
  | none => simp [failsOn, hd] at hf
  | some d =>
    cases hp : fs d.path with
    | some c => simp [failsOn, hd, hp] at hf
    | none => exact ⟨d, rfl, by simp [expandLine, hd, hp]⟩

/-- If some line of the document is a directive with a missing file, the
pass fails with a ReferenceNotFound error, from any starting number. -/
theorem processFrom_fails (fs : FS) :
    ∀ doc : List String, (∃ l ∈ doc, failsOn fs l = true) →
      ∀ n : Nat, ∃ m p, processFrom fs n doc = .error (.referenceNotFound m p) := by
  intro doc
  induction doc with
  | nil => intro h _; simp at h
  | cons l ls ih =>
    intro h n
    cases he : expandLine fs n l with
    | error e =>
      cases e with
      | referenceNotFound m p => exact ⟨m, p, by simp [processFrom, he]⟩
    | ok c =>
      have hls : ∃ x ∈ ls, failsOn fs x = true := by
        rcases h with ⟨x, hx, hfx⟩
        rcases List.mem_cons.mp hx with rfl | hx2
        · rcases expandLine_of_failsOn fs x hfx n with ⟨d, _, hee⟩
          rw [hee] at he
          exact Except.noConfusion he
        · exact ⟨x, hx2, hfx⟩
      rcases ih hls (n + 1) with ⟨m, p, hmp⟩
      exact ⟨m, p, by simp [processFrom, he, hmp]⟩

/-- C2: for every document containing no include directives, the
preprocessor is the identity: its output equals the input verbatim. -/
theorem process_identity_no_directives (fs : FS) (doc : List String)
    (h : ∀ l ∈ doc, parseDirective l = none) :
    process fs doc = .ok doc :=
  processFrom_no_dirs fs doc h 1

theorem process_identity_no_directives_witness :
    process (fun _ => none) ["# Title", "text"] = .ok ["# Title", "text"] :=
  process_identity_no_directives (fun _ => none) ["# Title", "text"] (by decide)

/-- C4: for a document with exactly one include directive whose referenced
file exists under the search path, the output is the input with the
directive replaced by the rendered fence followed by the referenced file's
exact contents, and every surrounding line unchanged. -/
theorem process_single_include_substitution (fs : FS) (pre post : List String)
    (dl : String) (d : Directive) (cs : List String)
    (hd : parseDirective dl = some d)
    (hpre : ∀ l ∈ pre, parseDirective l = none)
    (hpost : ∀ l ∈ post, parseDirective l = none)
    (hf : fs d.path = some cs) :
    process fs (pre ++ dl :: post) = .ok (pre ++ (renderFence d :: cs) ++ post) := by
  unfold process
  rw [processFrom_append_plain fs (dl :: post) pre hpre 1]
  have h1 : expandLine fs (1 + pre.length) dl = .ok (renderFence d :: cs) := by
    simp [expandLine, hd, hf]
  have h2 : processFrom fs (1 + pre.length + 1) post = .ok post :=
    processFrom_no_dirs fs post hpost _
  simp [processFrom, h1, h2, Except.map, List.append_assoc]

theorem process_single_include_substitution_witness :
    process (fun p => if p = "foo.py" then some ["print(1)"] else none)
        (["# Title", ""] ++ "```py:include=foo.py" :: ["```"]) =
      .ok (["# Title", ""] ++ (renderFence ⟨"py", "foo.py"⟩ :: ["print(1)"]) ++ ["```"]) :=
  process_single_include_substitution
    (fun p => if p = "foo.py" then some ["print(1)"] else none)
    ["# Title", ""] ["```"] "```py:include=foo.py" ⟨"py", "foo.py"⟩ ["print(1)"]
    (by decide) (by decide) (by decide) (by decide)

/-- C5: for every input containing an include directive whose referenced
file is missing from the search path, the run fails with a
ReferenceNotFound error carrying a line number and path, and the CLI run
writes nothing to standard output and exits with the nonzero code one. -/
theorem process_missing_reference_error (fs : FS) (doc : List String)
    (h : ∃ l ∈ doc, failsOn fs l = true) :
    (∃ n p, process fs doc = .error (.referenceNotFound n p)) ∧
    runProcess fs doc = (1, []) := by
  rcases processFrom_fails fs doc h 1 with ⟨m, p, hmp⟩
  refine ⟨⟨m, p, hmp⟩, ?_⟩
  unfold runProcess process
  rw [hmp]

theorem process_missing_reference_error_witness :
    (∃ n p, process (fun _ => none) ["```py:include=gone.py"] =
      .error (.referenceNotFound n p)) ∧
    runProcess (fun _ => none) ["```py:include=gone.py"] = (1, []) :=
  process_missing_reference_error (fun _ => none) ["```py:include=gone.py"] (by decide)

/-- C6: for every input on which the preprocessor succeeds, the output is
the concatenation, in input order, of one chunk per input line (each chunk
holding zero or more lines): content originating from distinct input lines
is never reordered. -/
theorem process_preserves_line_order (fs : FS) (doc out : List String)
    (h : process fs doc = .ok out) :
    ∃ chunks : List (List String),
      lineOutputs fs 1 doc = .ok chunks ∧ chunks.length = doc.length ∧
      out = chunks.flatten := by
  unfold process at h
  rw [processFrom_eq_lineOutputs fs doc 1] at h
  cases hlo : lineOutputs fs 1 doc with
  | error e => rw [hlo] at h; simp [Except.map] at h
  | ok chunks =>
    rw [hlo] at h
    simp only [Except.map, Except.ok.injEq] at h
    exact ⟨chunks, rfl, lineOutputs_length fs doc 1 chunks hlo, h.symm⟩

theorem process_preserves_line_order_witness :
    ∃ chunks : List (List String),
      lineOutputs (fun p => if p = "foo.py" then some ["print(1)"] else none) 1
          ["# Title", "", "```py:include=foo.py", "```"] = .ok chunks ∧
      chunks.length =
        (["# Title", "", "```py:include=foo.py", "```"] : List String).length ∧
      ["# Title", "", "```py", "print(1)", "```"] = chunks.flatten :=
  process_preserves_line_order
    (fun p => if p = "foo.py" then some ["print(1)"] else none)
    ["# Title", "", "```py:include=foo.py", "```"]
    ["# Title", "", "```py", "print(1)", "```"] rfl

/-- C7: on a document with zero include directives, preprocessing is pure
and idempotent: any number of successive runs yields the document itself,
the same output every time. -/
theorem process_iterated_identity (fs : FS) (doc : List String)
    (h : ∀ l ∈ doc, parseDirective l = none) :
    ∀ n : Nat, processIter fs n doc = .ok doc := by
  intro n
  induction n with
  | zero => rfl
  | succ n ih =>
    have hp : process fs doc = .ok doc := processFrom_no_dirs fs doc h 1
    simp [processIter, hp, ih]

theorem process_iterated_identity_witness :
    processIter (fun _ => none) 3 ["# Title", "text"] = .ok ["# Title", "text"] :=
  process_iterated_identity (fun _ => none) ["# Title", "text"] (by decide) 3

/-- C8: the preprocessor terminates after a single top-to-bottom pass: the
empty input yields exactly the empty output (no leading or trailing
content is invented), and a fuel budget of one step per input line always
suffices for the pass to complete with its usual result. -/
theorem process_fuel_terminates :
    (∀ fs : FS, process fs [] = .ok []) ∧
    (∀ (fs : FS) (doc : List String) (fuel n : Nat), doc.length ≤ fuel →
      processFromFuel fs fuel n doc = some (processFrom fs n doc)) := by
  constructor
  · intro fs; rfl
  · intro fs doc
    induction doc with
    | nil => intro fuel n _; cases fuel <;> rfl
    | cons l ls ih =>
      intro fuel n h
      cases fuel with
      | zero => simp [List.length_cons] at h
      | succ f =>
        have hle : ls.length ≤ f := by simp [List.length_cons] at h; omega
        have hrec := ih f (n + 1) hle
        cases he : expandLine fs n l with
        | error e => simp [processFromFuel, processFrom, he]
        | ok c =>
          cases hp : processFrom fs (n + 1) ls with
          | error e =>
            rw [hp] at hrec
            simp [processFromFuel, processFrom, he, hp, hrec]
          | ok rest =>
            rw [hp] at hrec
            simp [processFromFuel, processFrom, he, hp, hrec]

theorem process_fuel_terminates_witness :
    process (fun _ => none) [] = .ok [] ∧
    processFromFuel (fun _ => none) 5 1 ["a", "b"] =
      some (processFrom (fun _ => none) 1 ["a", "b"]) :=
  ⟨process_fuel_terminates.1 (fun _ => none),
   process_fuel_terminates.2 (fun _ => none) ["a", "b"] 5 1 (by decide)⟩
